import Mathlib

/-
  Verification development for scapy's HTTP 1.x layer
  (src/scapy/layers/http.py).

  The Python code is shallowly embedded: byte strings become `List Nat`
  (one `Nat` per byte), Python dicts become insertion-ordered association
  lists, the per-stream `metadata` dict becomes an explicit `Meta` record,
  the completeness-predicate lambdas installed by `HTTP.tcp_reassemble`
  become the defunctionalised `DetectEnd` type, and the compression
  backends (zlib, gzip, lzw, brotli, zstandard), which live outside this
  file's source, become an explicit `CodecEnv` record of availability
  flags and fallible decode functions.  A Python `raise` that can escape
  a modelled function is an `Except.error`.
-/

set_option maxRecDepth 10000
set_option linter.unusedVariables false

/-- A Python byte string: one `Nat` (0..255) per byte. -/
abbrev Bytes := List Nat

/-- Bytes of a (pure-ASCII) Lean string literal. -/
def str2b (s : String) : Bytes := s.data.map Char.toNat

/-- The byte sequence `b"\r\n"`. -/
def crlfB : Bytes := [13, 10]

/-- The byte sequence `b"\r\n\r\n"`. -/
def crlf2B : Bytes := [13, 10, 13, 10]

/-- ASCII whitespace accepted by Python's `bytes.strip()` / regex `\s`:
space, tab, newline, carriage return, vertical tab, form feed. -/
def isPyWS (b : Nat) : Bool := b == 32 || b == 9 || b == 10 || b == 13 || b == 11 || b == 12

/-- Python `bytes.strip()` (both ends, ASCII whitespace). -/
def pyStrip (s : Bytes) : Bytes :=
  ((s.dropWhile isPyWS).reverse.dropWhile isPyWS).reverse

/-- ASCII lower-casing of one byte (`A`..`Z` to `a`..`z`). -/
def lowerByte (b : Nat) : Nat := if 65 ≤ b ∧ b ≤ 90 then b + 32 else b

/-- ASCII `bytes.lower()`. -/
def lowerBytes (s : Bytes) : Bytes := s.map lowerByte

/-- `_strip_header_name`: strip the name, then replace `-` with `_`
(`plain_str` is the identity in this byte-level model). -/
def stripHeaderName (s : Bytes) : Bytes :=
  (pyStrip s).map (fun c => if c = 45 then 95 else c)

/-- `_strip_header_name(x).lower()`, the normalised header key used by
`_parse_headers` and `_dissect_headers`. -/
def normLower (s : Bytes) : Bytes := lowerBytes (stripHeaderName s)

/-- `p` is a prefix of the second list. -/
def bytesPrefix : Bytes → Bytes → Bool
  | [], _ => true
  | _ :: _, [] => false
  | a :: xs, b :: ys => (a == b) && bytesPrefix xs ys

theorem bytesPrefix_length {p l : Bytes} (h : bytesPrefix p l = true) :
    p.length ≤ l.length := by
  induction p generalizing l with
  | nil => simp
  | cons a xs ih =>
    cases l with
    | nil => simp [bytesPrefix] at h
    | cons b ys =>
      simp only [bytesPrefix, Bool.and_eq_true] at h
      simpa using ih h.2

/-- Helper for `bytes.find`: index of the first occurrence of `pat`
starting at offset `i`. -/
def findSubAux (pat : Bytes) : Bytes → Nat → Option Nat
  | [], i => if pat.isEmpty then some i else none
  | l@(_ :: t), i => if bytesPrefix pat l then some i else findSubAux pat t (i + 1)

/-- Index of the first occurrence of `pat` in `s` (Python `find`/`index`
without the `-1` encoding). -/
def findSubIdx (s pat : Bytes) : Option Nat := findSubAux pat s 0

/-- Python `bytes.find`: first index of `pat`, or `-1`. -/
def pyFind (s pat : Bytes) : Int :=
  match findSubIdx s pat with
  | some i => (i : Int)
  | none => -1

/-- Python `bytes.endswith`. -/
def pyEndswith (s pat : Bytes) : Bool :=
  decide (pat.length ≤ s.length) && (s.drop (s.length - pat.length) == pat)

/-- Normalise a Python slice bound against a list of the given length:
clamp non-negative bounds at the length, add the length to negative
bounds (clamping at 0). -/
def pyIdx (len : Nat) (i : Int) : Nat :=
  if 0 ≤ i then min i.toNat len else len - min len (-i).toNat

/-- Python `s[:b]`. -/
def pySliceTo (s : Bytes) (b : Int) : Bytes := s.take (pyIdx s.length b)

/-- Python `s[a:]`. -/
def pySliceFrom (s : Bytes) (a : Int) : Bytes := s.drop (pyIdx s.length a)

/-- Python `s[a:b]`. -/
def pySliceRange (s : Bytes) (a b : Int) : Bytes :=
  (s.take (pyIdx s.length b)).drop (pyIdx s.length a)

theorem findSubAux_bound {pat s : Bytes} {i j : Nat}
    (h : findSubAux pat s i = some j) : j + pat.length ≤ i + s.length := by
  induction s generalizing i with
  | nil =>
    simp only [findSubAux, List.isEmpty_iff] at h
    split at h
    · rename_i hp
      cases h
      simp [hp]
    · cases h
  | cons a t ih =>
    simp only [findSubAux] at h
    split at h
    · rename_i hp
      cases h
      have := bytesPrefix_length hp
      simp only [List.length_cons] at this ⊢
      omega
    · have := ih h
      simp only [List.length_cons] at this ⊢
      omega

theorem findSubIdx_bound {s pat : Bytes} {i : Nat}
    (h : findSubIdx s pat = some i) : i + pat.length ≤ s.length := by
  simpa using findSubAux_bound (s := s) (i := 0) h

/-- Structural worker for `bytes.split`: the fuel only bounds the
number of separator occurrences consumed; it is initialised to the
string length and can never run out, because every recursive step drops
at least `sep.length ≥ 1` bytes (when the fuel hits 0 the remaining
string is empty, and both branches agree on `[s]`). -/
def pySplitFuel (sep : Bytes) : Nat → Bytes → List Bytes
  | 0, s => [s]
  | fuel + 1, s =>
    match findSubIdx s sep with
    | none => [s]
    | some i => s.take i :: pySplitFuel sep fuel (s.drop (i + sep.length))

/-- Python `bytes.split(sep)` for a non-empty separator (keeps empty
pieces; an empty separator degenerates to the whole string, a case the
source never exercises). -/
def pySplitSep (s sep : Bytes) : List Bytes :=
  if sep.isEmpty then [s] else pySplitFuel sep s.length s

/-- Python `s.split(sep, 1)` as used in `headers.split(b"\r\n", 1)` and
`header_line.split(b':', 1)`; `none` models the `ValueError` of unpacking
a separator-free string into two variables. -/
def pySplit1 (s sep : Bytes) : Option (Bytes × Bytes) :=
  match findSubIdx s sep with
  | some i => some (s.take i, s.drop (i + sep.length))
  | none => none

/-- Python `bytes.partition`. -/
def pyPartition (s sep : Bytes) : Bytes × Bytes × Bytes :=
  match findSubIdx s sep with
  | some i => (s.take i, sep, s.drop (i + sep.length))
  | none => (s, [], [])

/-- Value of one ASCII digit byte in the given base. -/
def digitValB (base b : Nat) : Option Nat :=
  if 48 ≤ b ∧ b ≤ 57 ∧ b - 48 < base then some (b - 48)
  else if 97 ≤ b ∧ b ≤ 102 ∧ b - 87 < base then some (b - 87)
  else if 65 ≤ b ∧ b ≤ 70 ∧ b - 55 < base then some (b - 55)
  else none

/-- Digits after the first one: single underscores are allowed between
digits (CPython's integer literal grammar for `int()`). -/
def digitsRun (base : Nat) : Bytes → Nat → Option Nat
  | [], acc => some acc
  | [95], _ => none
  | 95 :: c :: rest, acc =>
    match digitValB base c with
    | some d => digitsRun base rest (acc * base + d)
    | none => none
  | b :: rest, acc =>
    match digitValB base b with
    | some d => digitsRun base rest (acc * base + d)
    | none => none

/-- A non-empty digit string with embedded single underscores. -/
def parseDigits (base : Nat) : Bytes → Option Nat
  | [] => none
  | b :: rest =>
    match digitValB base b with
    | some d => digitsRun base rest d
    | none => none

/-- Magnitude part of Python `int()`: an optional `0x`/`0X` prefix (base
16 only, with an optional underscore right after it), then digits. -/
def parseIntMag (base : Nat) (hex0x : Bool) (l : Bytes) : Option Nat :=
  match l with
  | 48 :: x :: rest =>
    if hex0x ∧ (x = 120 ∨ x = 88) then
      match rest with
      | 95 :: r2 => parseDigits base r2
      | _ => parseDigits base rest
    else parseDigits base l
  | _ => parseDigits base l

/-- Python `int(s, base)` on an ASCII byte string: strip whitespace,
optional sign, magnitude; `none` models a `ValueError`. -/
def pyIntBase (base : Nat) (hex0x : Bool) (s : Bytes) : Option Int :=
  let t := pyStrip s
  match t with
  | 43 :: rest => (parseIntMag base hex0x rest).map (fun n => (n : Int))
  | 45 :: rest => (parseIntMag base hex0x rest).map (fun n => -(n : Int))
  | _ => (parseIntMag base hex0x t).map (fun n => (n : Int))

/-- Python `int(s)` (base 10). -/
def pyInt (s : Bytes) : Option Int := pyIntBase 10 false s

/-- Python `int(s, 16)`. -/
def pyIntHex (s : Bytes) : Option Int := pyIntBase 16 true s

/-- `re.split(br"\s+", s, maxsplit)`: split on maximal whitespace runs,
at most `k` splits, keeping a leading empty piece when the string starts
with whitespace. -/
def reSplitWS : Nat → Bytes → List Bytes
  | 0, s => [s]
  | k + 1, s =>
    match s.findIdx? isPyWS with
    | none => [s]
    | some i => s.take i :: reSplitWS k ((s.drop i).dropWhile isPyWS)

/- ### Python dicts as insertion-ordered association lists -/

/-- Python dict lookup `d.get(k)`. -/
def dictFind {α : Type} (d : List (Bytes × α)) (k : Bytes) : Option α :=
  match d.find? (fun e => e.1 == k) with
  | some e => some e.2
  | none => none

/-- Python `k in d`. -/
def dictHas {α : Type} (d : List (Bytes × α)) (k : Bytes) : Bool :=
  d.any (fun e => e.1 == k)

/-- Python `d[k] = v`: replace in place if the key is present (keeping
its insertion position), otherwise append. -/
def dictInsert {α : Type} (d : List (Bytes × α)) (k : Bytes) (v : α) :
    List (Bytes × α) :=
  if dictHas d k then d.map (fun e => if e.1 == k then (e.1, v) else e)
  else d ++ [(k, v)]

/-- Python `d.pop(k)` (together with the `KeyError`/`except` outcome):
the popped value, if any, and the dict without the key. -/
def dictPop {α : Type} (d : List (Bytes × α)) (k : Bytes) :
    Option α × List (Bytes × α) :=
  (dictFind d k, d.filter (fun e => !(e.1 == k)))

/- ### Header parsing (`_parse_headers`, `_parse_headers_and_body`,
`_dissect_headers` of src/scapy/layers/http.py) -/

/-- One entry of the `_parse_headers` dict: normalised key mapped to the
original-case key and the stripped value. -/
abbrev HeaderDict := List (Bytes × (Bytes × Bytes))

/-- `_parse_headers`: split the header block on `\r\n`; a line without a
colon raises `ValueError` in the `split` unpacking and is skipped; other
lines are stored under `_strip_header_name(key).lower()` as
`(key, value.strip())`, later duplicates overwriting earlier ones. -/
def parseHeaders (s : Bytes) : HeaderDict :=
  (pySplitSep s crlfB).foldl
    (fun d line =>
      match pySplit1 line [58] with
      | none => d
      | some (k, v) => dictInsert d (normLower k) (k, pyStrip v))
    []

/-- `_parse_headers_and_body`: split on the first `\r\n\r\n` (headers
block keeps the terminator, body is the rest; no terminator means an
empty body), then split the headers block on its first `\r\n` into the
stripped first line and the header lines.  The `none` case of that last
split would raise in Python; it is unreachable from dissection because
`guess_payload_class` only classifies buffers containing `\r\n`. -/
def parseHeadersAndBody (s : Bytes) : Bytes × HeaderDict × Bytes :=
  let hb : Bytes × Bytes :=
    match findSubIdx s crlf2B with
    | some i => (s.take (i + 4), s.drop (i + 4))
    | none => (s, [])
  match pySplit1 hb.1 crlfB with
  | some fl => (pyStrip fl.1, parseHeaders fl.2, hb.2)
  | none => (pyStrip hb.1, [], hb.2)

/-- The `for f in obj.fields_desc` loop of `_dissect_headers`: each field
name is normalised and popped from the header dict into its slot. -/
def popFields (fields : List Bytes) (slots : List (Bytes × Bytes))
    (h : HeaderDict) : List (Bytes × Bytes) × HeaderDict :=
  match fields with
  | [] => (slots, h)
  | f :: fs =>
    match dictPop h (normLower f) with
    | (some v, h2) => popFields fs (dictInsert slots f v.2) h2
    | (none, h2) => popFields fs slots h2

/-- Result of `_dissect_headers` (plus the first line and raw body that
it passes back to `do_dissect`). -/
structure DHres where
  slots : List (Bytes × Bytes)
  unknown : List (Bytes × Bytes)
  firstLine : Bytes
  rawBody : Bytes
deriving DecidableEq, Repr

/-- `_dissect_headers`: parse the packet, pop every recognised field
into its slot, and turn the remaining entries into the `Unknown_Headers`
dict keyed by the original-case names (`dict(headers.values())`). -/
def dissectHeadersG (fields : List Bytes) (s : Bytes) : DHres :=
  let p := parseHeadersAndBody s
  let sr := popFields fields [] p.2.1
  let unk := (sr.2.map (fun e => e.2)).foldl (fun d q => dictInsert d q.1 q.2) []
  { slots := sr.1, unknown := unk, firstLine := p.1, rawBody := p.2.2 }

/- ### Header catalogs (the `*_HEADERS` lists of the source) -/

def GENERAL_HEADERS : List String :=
  ["Cache-Control", "Connection", "Permanent", "Content-Length",
   "Content-MD5", "Content-Type", "Date", "Keep-Alive", "Pragma",
   "Upgrade", "Via", "Warning"]

def COMMON_UNSTANDARD_GENERAL_HEADERS : List String :=
  ["X-Request-ID", "X-Correlation-ID"]

def REQUEST_HEADERS : List String :=
  ["A-IM", "Accept", "Accept-Charset", "Accept-Encoding",
   "Accept-Language", "Accept-Datetime", "Access-Control-Request-Method",
   "Access-Control-Request-Headers", "Authorization", "Cookie", "Expect",
   "Forwarded", "From", "Host", "HTTP2-Settings", "If-Match",
   "If-Modified-Since", "If-None-Match", "If-Range",
   "If-Unmodified-Since", "Max-Forwards", "Origin",
   "Proxy-Authorization", "Range", "Referer", "TE", "User-Agent"]

def COMMON_UNSTANDARD_REQUEST_HEADERS : List String :=
  ["Upgrade-Insecure-Requests", "X-Requested-With", "DNT",
   "X-Forwarded-For", "X-Forwarded-Host", "X-Forwarded-Proto",
   "Front-End-Https", "X-Http-Method-Override", "X-ATT-DeviceId",
   "X-Wap-Profile", "Proxy-Connection", "X-UIDH", "X-Csrf-Token",
   "Save-Data"]

def RESPONSE_HEADERS : List String :=
  ["Access-Control-Allow-Origin", "Access-Control-Allow-Credentials",
   "Access-Control-Expose-Headers", "Access-Control-Max-Age",
   "Access-Control-Allow-Methods", "Access-Control-Allow-Headers",
   "Accept-Patch", "Accept-Ranges", "Age", "Allow", "Alt-Svc",
   "Content-Disposition", "Content-Encoding", "Content-Language",
   "Content-Location", "Content-Range", "Delta-Base", "ETag", "Expires",
   "IM", "Last-Modified", "Link", "Location", "P3P",
   "Proxy-Authenticate", "Public-Key-Pins", "Retry-After", "Server",
   "Set-Cookie", "Strict-Transport-Security", "Trailer",
   "Transfer-Encoding", "Tk", "Vary", "WWW-Authenticate",
   "X-Frame-Options"]

def COMMON_UNSTANDARD_RESPONSE_HEADERS : List String :=
  ["Content-Security-Policy", "X-Content-Security-Policy",
   "X-WebKit-CSP", "Refresh", "Status", "Timing-Allow-Origin",
   "X-Content-Duration", "X-Content-Type-Options", "X-Powered-By",
   "X-UA-Compatible", "X-XSS-Protection"]

/-- Lexicographic order on byte strings (Python `str` comparison on the
ASCII header names). -/
def lexLeB : Bytes → Bytes → Bool
  | [], _ => true
  | _ :: _, [] => false
  | x :: xs, y :: ys =>
    if x < y then true else if y < x then false else lexLeB xs ys

def sortInsB (x : Bytes) : List Bytes → List Bytes
  | [] => [x]
  | y :: ys => if lexLeB x y then x :: y :: ys else y :: sortInsB x ys

/-- `sorted(...)` on header names (insertion sort; Python's sort is a
stable comparison sort, and the catalogs contain no duplicates). -/
def pySortB (l : List Bytes) : List Bytes := l.foldr sortInsB []

/-- One `fields_desc` entry: the underscored field name
(`_HTTPHeaderField.name`), the original name (`real_name`), and the
field's default value. -/
abbrev FieldSpec := Bytes × Bytes × Option Bytes

/-- `_generate_headers`-produced field for a catalog header name. -/
def mkHdrField (h : Bytes) : FieldSpec := (stripHeaderName h, h, none)

/-- `HTTPRequest.fields_desc`. -/
def requestFieldsFull : List FieldSpec :=
  [(str2b "Method", str2b "Method", some (str2b "GET")),
   (str2b "Path", str2b "Path", some (str2b "/")),
   (stripHeaderName (str2b "Http-Version"), str2b "Http-Version",
    some (str2b "HTTP/1.1"))]
  ++ (pySortB ((GENERAL_HEADERS ++ REQUEST_HEADERS
        ++ COMMON_UNSTANDARD_GENERAL_HEADERS
        ++ COMMON_UNSTANDARD_REQUEST_HEADERS).map str2b)).map mkHdrField
  ++ [(stripHeaderName (str2b "Unknown-Headers"), str2b "Unknown-Headers", none)]

/-- `HTTPResponse.fields_desc`. -/
def responseFieldsFull : List FieldSpec :=
  [(stripHeaderName (str2b "Http-Version"), str2b "Http-Version",
    some (str2b "HTTP/1.1")),
   (stripHeaderName (str2b "Status-Code"), str2b "Status-Code",
    some (str2b "200")),
   (stripHeaderName (str2b "Reason-Phrase"), str2b "Reason-Phrase",
    some (str2b "OK"))]
  ++ (pySortB ((GENERAL_HEADERS ++ RESPONSE_HEADERS
        ++ COMMON_UNSTANDARD_GENERAL_HEADERS
        ++ COMMON_UNSTANDARD_RESPONSE_HEADERS).map str2b)).map mkHdrField
  ++ [(stripHeaderName (str2b "Unknown-Headers"), str2b "Unknown-Headers", none)]

def requestFieldNames : List Bytes := requestFieldsFull.map (fun f => f.1)

def responseFieldNames : List Bytes := responseFieldsFull.map (fun f => f.1)

/- ### Compression backends (`_HTTPContent.post_dissect` / `post_build`)

The zlib/gzip/lzw/brotli/zstandard libraries live outside this source
file; they are represented by an environment of availability flags
(`_is_*_available`) and decode functions whose `Except.error` models a
raised exception.  Compression (the `post_build` direction) carries no
`try` in the source, so those functions are total. -/

structure CodecEnv where
  lzw_available : Bool
  brotli_available : Bool
  zstd_available : Bool
  zlib_decompress : Bytes → Except Unit Bytes
  gzip_decompress : Bytes → Except Unit Bytes
  lzw_decompress : Bytes → Except Unit Bytes
  brotli_decompress : Bytes → Except Unit Bytes
  zstd_decompress : Bytes → Except Unit Bytes
  zlib_compress : Bytes → Bytes
  gzip_compress : Bytes → Bytes
  lzw_compress : Bytes → Bytes
  brotli_compress : Bytes → Bytes
  zstd_compress : Bytes → Bytes

/-- The `try: ... except Exception: pass` around the decompression: an
error from the backend leaves the current value unchanged. -/
def exceptPass (r : Except Unit Bytes) (s : Bytes) : Bytes :=
  match r with
  | .ok v => v
  | .error _ => s

/-- `_get_encodings` comma-splitting: `plain_str(x).strip().lower()` for
each piece. -/
def splitCommaTokens (v : Bytes) : List Bytes :=
  (pySplitSep v [44]).map (fun x => lowerBytes (pyStrip x))

/-- `_HTTPContent._get_encodings`: only an `HTTPResponse` contributes its
`Transfer_Encoding` then `Content_Encoding` tokens; a request always
yields the empty list. -/
def getEncodings (isResp : Bool) (te ce : Option Bytes) : List Bytes :=
  if isResp then
    (match te with
     | some v => if v.isEmpty then [] else splitCommaTokens v
     | none => []) ++
    (match ce with
     | some v => if v.isEmpty then [] else splitCommaTokens v
     | none => [])
  else []

/-- The `while s:` chunk-decoding loop of `post_dissect`: returns the
final value of `s` (the unconsumed remainder) and the accumulated
`data`.  Each iteration: `length, _, body = s.partition(b"\r\n")`, parse
the length as hex (a failure breaks out), slice the chunk, require the
trailing `\r\n` (else break), and continue on the rest. -/
def dechunkFuel : Nat → Bytes → Bytes → Bytes × Bytes
  | 0, s, acc => (s, acc)
  | fuel + 1, s, acc =>
    if s.isEmpty then (s, acc)
    else
      match findSubIdx s crlfB with
      | none =>
        -- partition found no separator: length text is all of s, body is empty
        match pyIntHex s with
        | none => (s, acc)
        | some n =>
          if pySliceRange [] n (n + 2) = crlfB then
            dechunkFuel fuel (pySliceFrom ([] : Bytes) (n + 2))
              (acc ++ pySliceTo [] n)
          else (s, acc)
      | some i =>
        match pyIntHex (s.take i) with
        | none => (s, acc)
        | some n =>
          if pySliceRange (s.drop (i + 2)) n (n + 2) = crlfB then
            dechunkFuel fuel (pySliceFrom (s.drop (i + 2)) (n + 2))
              (acc ++ pySliceTo (s.drop (i + 2)) n)
          else (s, acc)

/-- Entry point of the loop.  The fuel `s.length` can never run out:
every iteration that continues consumes the length line and its CRLF
(at least two bytes), and when the fuel hits 0 the remaining string is
empty, where both branches agree on `(s, acc)`. -/
def dechunk (s acc : Bytes) : Bytes × Bytes := dechunkFuel s.length s acc

/-- The un-chunkify stage of `post_dissect`: run the loop, and only if it
consumed the whole input replace `s` by the decoded data (`if not s:
s = data`). -/
def chunkStage (enc : List Bytes) (s : Bytes) : Bytes :=
  if enc.contains (str2b "chunked") then
    let r := dechunk s []
    if r.1.isEmpty then r.2 else r.1
  else s

/-- The decompression stage of `post_dissect`: the first matching coding
(in source order deflate, gzip, compress, br, zstd) is tried; a missing
backend logs and skips; the surrounding `try` turns any backend error
into a no-op. -/
def codecStage (env : CodecEnv) (enc : List Bytes) (s : Bytes) : Bytes :=
  if enc.contains (str2b "deflate") then exceptPass (env.zlib_decompress s) s
  else if enc.contains (str2b "gzip") then exceptPass (env.gzip_decompress s) s
  else if enc.contains (str2b "compress") then
    (if env.lzw_available then exceptPass (env.lzw_decompress s) s else s)
  else if enc.contains (str2b "br") then
    (if env.brotli_available then exceptPass (env.brotli_decompress s) s else s)
  else if enc.contains (str2b "zstd") then
    (if env.zstd_available then exceptPass (env.zstd_decompress s) s else s)
  else s

/-- `_HTTPContent.post_dissect` for a packet whose `_get_encodings()` is
`enc`: a no-op when auto compression is off, otherwise un-chunk then
decompress.  Total: no exception escapes this function in the source. -/
def postDissect (env : CodecEnv) (auto : Bool) (enc : List Bytes)
    (s : Bytes) : Bytes :=
  if !auto then s else codecStage env enc (chunkStage enc s)

/-- `_HTTPContent.post_build`: compress the payload with the first
matching coding and append it (no chunk re-encoding in the source). -/
def postBuild (env : CodecEnv) (auto : Bool) (enc : List Bytes)
    (pkt pay : Bytes) : Bytes :=
  if !auto then pkt ++ pay
  else
    let pay2 :=
      if enc.contains (str2b "deflate") then env.zlib_compress pay
      else if enc.contains (str2b "gzip") then env.gzip_compress pay
      else if enc.contains (str2b "compress") then
        (if env.lzw_available then env.lzw_compress pay else pay)
      else if enc.contains (str2b "br") then
        (if env.brotli_available then env.brotli_compress pay else pay)
      else if enc.contains (str2b "zstd") then
        (if env.zstd_available then env.zstd_compress pay else pay)
      else pay
    pkt ++ pay2

/- ### Message model (`HTTPRequest` / `HTTPResponse` packets) -/

/-- A dissected `HTTPRequest`/`HTTPResponse`: the populated field slots
(`setfieldval` results, keyed by the underscored field name), the
`Unknown_Headers` dict, the `raw_packet_cache`, and the payload bytes
left after `post_dissect` (the packet's `payload.payload` in
`tcp_reassemble`, kept as raw bytes). -/
structure HModel where
  slots : List (Bytes × Bytes)
  unknown : List (Bytes × Bytes)
  cache : Option Bytes
  body : Bytes
deriving DecidableEq, Repr

/-- The result of building `HTTP(data)`: the payload is a request, a
response, a `Raw` blob, or the (never parsed here) HTTP/2 hand-off of
`dispatch_hook`. -/
inductive HPayload where
  | req (m : HModel)
  | resp (m : HModel)
  | rawp (b : Bytes)
  | h2p (b : Bytes)
deriving DecidableEq, Repr

/-- The first-line `setfieldval` calls of `do_dissect`: split the first
line on whitespace runs (`re.split(br"\s+", first_line, 2)`); anything
but exactly three parts raises `ValueError` in the unpacking and is
swallowed, leaving the fields at their defaults. -/
def startLineSet (isResp : Bool) (slots : List (Bytes × Bytes))
    (fl : Bytes) : List (Bytes × Bytes) :=
  match reSplitWS 2 fl with
  | [a, b, c] =>
    if isResp then
      dictInsert (dictInsert (dictInsert slots (str2b "Http_Version") a)
        (str2b "Status_Code") b) (str2b "Reason_Phrase") c
    else
      dictInsert (dictInsert (dictInsert slots (str2b "Method") a)
        (str2b "Path") b) (str2b "Http_Version") c
  | _ => slots

/-- Full dissection of one `HTTPRequest`/`HTTPResponse` layer from `s`:
`do_dissect` (headers into slots, first line, `raw_packet_cache`
= `s[:-len(body)]` when a body exists, else `s`), then `post_dissect`
applied to the returned body with the packet's own `_get_encodings()`. -/
def dissectModel (env : CodecEnv) (auto : Bool) (isResp : Bool)
    (s : Bytes) : HModel :=
  let fields := if isResp then responseFieldNames else requestFieldNames
  let r := dissectHeadersG fields s
  let slots := startLineSet isResp r.slots r.firstLine
  let cache := if r.rawBody.isEmpty then s
    else s.take (s.length - r.rawBody.length)
  let enc := getEncodings isResp (dictFind slots (str2b "Transfer_Encoding"))
    (dictFind slots (str2b "Content_Encoding"))
  { slots := slots, unknown := r.unknown, cache := some cache,
    body := postDissect env auto enc r.rawBody }

/- ### `HTTP.guess_payload_class` (the protocol sniffer) -/

/-- `HTTP.reqmethods`, the known method alternatives of the request
regex. -/
def httpMethods : List Bytes :=
  ["OPTIONS", "GET", "HEAD", "POST", "PUT", "DELETE", "TRACE",
   "CONNECT"].map str2b

/-- Drop one trailing `\n`: Python's `$` matches at the end of the
string or just before a newline at the end of the string. -/
def dropFinalNL (l : Bytes) : Bytes :=
  if l.getLast? = some 10 then l.dropLast else l

def isDigitByte (b : Nat) : Bool := 48 ≤ b && b ≤ 57

/-- Tail of the request regex after `<method> `: `(?:.+?) HTTP/\d\.\d$`.
A match must end at `$`, so the literal ` HTTP/<d>.<d>` occupies the last
nine bytes and the non-greedy `.+?` (no newlines) everything before. -/
def reqTailMatch (rest : Bytes) : Bool :=
  let core := dropFinalNL rest
  decide (10 ≤ core.length) &&
  (let mid := core.take (core.length - 9)
   let tl := core.drop (core.length - 9)
   !(mid.contains 10) &&
   (tl.take 6 == str2b " HTTP/") &&
   (match tl.get? 6 with | some d => isDigitByte d | none => false) &&
   (tl.get? 7 == some 46) &&
   (match tl.get? 8 with | some d => isDigitByte d | none => false))

/-- The request start-line regex
`^(?:OPTIONS|GET|...|CONNECT) (?:.+?) HTTP/\d\.\d$`. -/
def reqLineMatch (line : Bytes) : Bool :=
  httpMethods.any (fun mth =>
    (line.take mth.length == mth) &&
    (line.get? mth.length == some 32) &&
    reqTailMatch (line.drop (mth.length + 1)))

/-- The response start-line regex `^HTTP/\d\.\d \d\d\d .*$`. -/
def respLineMatch (line : Bytes) : Bool :=
  let core := dropFinalNL line
  decide (13 ≤ core.length) &&
  (core.take 5 == str2b "HTTP/") &&
  (match core.get? 5 with | some d => isDigitByte d | none => false) &&
  (core.get? 6 == some 46) &&
  (match core.get? 7 with | some d => isDigitByte d | none => false) &&
  (core.get? 8 == some 32) &&
  (match core.get? 9 with | some d => isDigitByte d | none => false) &&
  (match core.get? 10 with | some d => isDigitByte d | none => false) &&
  (match core.get? 11 with | some d => isDigitByte d | none => false) &&
  (core.get? 12 == some 32) &&
  !((core.drop 13).contains 10)

inductive PClass where
  | reqC
  | respC
  | rawC
deriving DecidableEq, Repr

/-- `HTTP.guess_payload_class`: take the first `\r\n`-terminated line
(no `\r\n` raises `ValueError`, caught, giving `Raw`); match the request
regex, then the response regex, else `Raw`. -/
def guessPayloadClass (payload : Bytes) : PClass :=
  match findSubIdx payload crlfB with
  | none => .rawC
  | some i =>
    let req := payload.take i
    if reqLineMatch req then .reqC
    else if respLineMatch req then .respC
    else .rawC

/- ### `HTTP.dispatch_hook` (HTTP/2 hand-off) -/

/-- Modelled from the spec: the set of valid HTTP/2 frame-type bytes
(`scapy.contrib.http2._HTTP2_types`, outside this source file); §4.7
describes the check as "type byte validity" for the successor binary
protocol's frames, whose types are 0..9. -/
def h2Types : List Nat := [0, 1, 2, 3, 4, 5, 6, 7, 8, 9]

/-- Big-endian value of a byte list. -/
def beNat (l : Bytes) : Nat := l.foldl (fun a b => a * 256 + b) 0

/-- The frame-scanning loop of `dispatch_hook`: every frame must have a
valid type byte, a length consistent with the remaining bytes and a zero
reserved bit; an empty remainder means the whole prefix parsed as
HTTP/2. -/
def isH2LoopFuel : Nat → Bytes → Bool
  | 0, _ => true
  | fuel + 1, pkt =>
    if pkt.isEmpty then true
    else if pkt.length < 9 then false
    else if !(h2Types.contains (pkt.getD 3 0)) then false
    else
      if beNat (pkt.take 3) + 9 > pkt.length then false
      else if beNat ((pkt.drop 5).take 4) / 2 ^ 31 ≠ 0 then false
      else isH2LoopFuel fuel (pkt.drop (beNat (pkt.take 3) + 9))

/-- Entry point of the frame scan.  The fuel `pkt.length` can never run
out: each continuing iteration consumes a whole frame (at least nine
bytes), and at fuel 0 the remaining prefix is empty, where both branches
agree on `true`. -/
def isH2Loop (pkt : Bytes) : Bool := isH2LoopFuel pkt.length pkt

/-- `HTTP.dispatch_hook` returns the `H2Frame` class exactly when the
packet is at least nine bytes and scans as consecutive HTTP/2 frames. -/
def isH2 (data : Bytes) : Bool :=
  decide (9 ≤ data.length) && isH2Loop data

/-- `HTTP(data)`: dispatch, then classify and dissect the payload. -/
def httpParse (env : CodecEnv) (auto : Bool) (data : Bytes) : HPayload :=
  if isH2 data then .h2p data
  else
    match guessPayloadClass data with
    | .reqC => .req (dissectModel env auto false data)
    | .respC => .resp (dissectModel env auto true data)
    | .rawC => .rawp data

/- ### `HTTP.tcp_reassemble` -/

/-- The completeness-predicate lambdas of `tcp_reassemble`,
defunctionalised (one constructor per `detect_end = lambda ...` in the
source, in source order). -/
inductive DetectEnd where
  /-- `lambda _: True` (instant HEAD-response heuristic). -/
  | always
  /-- `lambda dat: len(dat) - http_length >= length`. -/
  | contentLen (httpLength : Int) (length : Int)
  /-- `lambda dat: False` (header section not fully received). -/
  | never
  /-- `lambda dat: dat.endswith(b"0\r\n\r\n")` (chunked). -/
  | chunkedEnd
  /-- `lambda dat: dat.endswith(b"\r\n\r\n")` (request without length). -/
  | doubleCRLF
  /-- `lambda dat: dat.find(b"\r\n\r\n")` (status-101 upgrade response);
  NOTE the lambda returns the `find` integer itself, so its truthiness is
  `≠ 0`, and a missing terminator gives `-1`, which is truthy. -/
  | upgradeFind
  /-- `lambda dat: metadata.get("tcp_end", False)`. -/
  | tcpEnd
deriving DecidableEq, Repr

/-- The per-stream `metadata` dict of `tcp_reassemble`: `detect_end`,
`detect_unknown` (default `True`), `tcp_end` (default `False`). -/
structure Meta where
  detect_end : Option DetectEnd := none
  detect_unknown : Bool := true
  tcp_end : Bool := false
deriving DecidableEq, Repr

/-- A fresh stream's metadata. -/
def initMeta : Meta := {}

/-- Evaluate a stored completeness predicate on the accumulated data,
exactly as Python evaluates the lambda's truthiness. -/
def evalDetect (d : DetectEnd) (meta : Meta) (dat : Bytes) : Bool :=
  match d with
  | .always => true
  | .contentLen hl n => decide ((dat.length : Int) - hl ≥ n)
  | .never => false
  | .chunkedEnd => pyEndswith dat (str2b "0\r\n\r\n")
  | .doubleCRLF => pyEndswith dat crlf2B
  | .upgradeFind => decide (pyFind dat crlf2B ≠ 0)
  | .tcpEnd => meta.tcp_end

/-- Common tail of the classification: store `detect_end` in the
metadata, return the parsed packet if it fires now, else the pending
sentinel (`None`). -/
def tcpFinish (pkt : HPayload) (data : Bytes) (meta : Meta)
    (d : DetectEnd) : Except Unit (Option HPayload × Meta) :=
  let meta2 := { meta with detect_end := some d }
  if evalDetect d meta2 data then .ok (some pkt, meta2)
  else .ok (none, meta2)

/-- The termination-rule classification of `tcp_reassemble` for a
request/response payload, in source order: instant HEAD-response
heuristic, Content-Length (`int(length)` raising `ValueError` on a
non-numeric value — there is no `try` around it in the source), chunked,
request double-CRLF, status-101 upgrade, and the `tcp_end` fallback. -/
def tcpClassify (data : Bytes) (meta : Meta) (pkt : HPayload)
    (m : HModel) (isResp : Bool) : Except Unit (Option HPayload × Meta) :=
  if isResp && pyEndswith data crlf2B then
    tcpFinish pkt data meta .always
  else
    match dictFind m.slots (str2b "Content_Length") with
    | some lv =>
      match pyInt lv with
      | none => .error ()
      | some n =>
        if !m.body.isEmpty || n == 0 then
          tcpFinish pkt data meta
            (.contentLen ((data.length : Int) - (m.body.length : Int)) n)
        else
          tcpFinish pkt data { meta with detect_unknown := true } .never
    | none =>
      let encs := getEncodings isResp
        (dictFind m.slots (str2b "Transfer_Encoding"))
        (dictFind m.slots (str2b "Content_Encoding"))
      if encs.contains (str2b "chunked") then
        tcpFinish pkt data meta .chunkedEnd
      else if !isResp then
        tcpFinish pkt data { meta with detect_unknown := true } .doubleCRLF
      else if dictFind m.slots (str2b "Status_Code") == some (str2b "101") then
        tcpFinish pkt data meta .upgradeFind
      else
        tcpFinish pkt data { meta with detect_unknown := true } .tcpEnd

/-- `HTTP.tcp_reassemble(data, metadata)`: while no predicate is fixed
(or the probe must continue), parse speculatively, pass through non-HTTP
payloads, classify the termination rule and evaluate it; otherwise just
evaluate the stored predicate, re-parsing on completion.  The returned
`Option` is the completed packet or the pending sentinel; `Except.error`
is an escaped Python exception. -/
def tcpReassemble (env : CodecEnv) (auto : Bool) (data : Bytes)
    (meta : Meta) : Except Unit (Option HPayload × Meta) :=
  if meta.detect_end.isNone || meta.detect_unknown then
    let meta1 := { meta with detect_unknown := false }
    match httpParse env auto data with
    | .rawp b => .ok (some (.rawp b), meta1)
    | .h2p b => .ok (some (.h2p b), meta1)
    | .req m => tcpClassify data meta1 (.req m) m false
    | .resp m => tcpClassify data meta1 (.resp m) m true
  else
    match meta.detect_end with
    | some d =>
      if evalDetect d meta data then .ok (some (httpParse env auto data), meta)
      else .ok (none, meta)
    | none => .ok (none, meta)

/-- Length of the header section of a buffer: everything up to and
including the first `\r\n\r\n`, or the whole buffer when the terminator
is absent (`_parse_headers_and_body`'s split point). -/
def headerSectionLen (s : Bytes) : Nat :=
  match findSubIdx s crlf2B with
  | some i => i + 4
  | none => s.length

/- ### `_HTTPContent.self_build` and serialization -/

/-- The field walk of `self_build` (the no-cache path): skip
`Unknown_Headers`; skip unset/empty values (`if not val`); fields with
index ≥ 3 are rendered as `real_name: value`; the first two fields are
followed by a space, later ones by `\r\n`; then the `Unknown_Headers`
lines; then one extra `\r\n` if anything was emitted. -/
def selfBuildWalk (fields : List FieldSpec) (m : HModel) : Bytes :=
  let p := fields.enum.foldl
    (fun p ef =>
      if ef.2.1 == str2b "Unknown_Headers" then p
      else
        let val := match dictFind m.slots ef.2.1 with
          | some v => some v
          | none => ef.2.2.2
        match val with
        | none => p
        | some v =>
          if v.isEmpty then p
          else
            let v2 := if 3 ≤ ef.1 then ef.2.2.1 ++ str2b ": " ++ v else v
            let sep := if ef.1 ≤ 1 then [32] else crlfB
            p ++ v2 ++ sep)
    []
  let p2 := if m.unknown.isEmpty then p
    else p ++ m.unknown.foldl
      (fun t e => t ++ e.1 ++ str2b ": " ++ e.2 ++ crlfB) []
  if p2.isEmpty then p2 else p2 ++ crlfB

/-- `self_build`: return the `raw_packet_cache` when set, else walk the
fields. -/
def selfBuildM (fields : List FieldSpec) (m : HModel) : Bytes :=
  match m.cache with
  | some c => c
  | none => selfBuildWalk fields m

/-- Serializing an `HTTPRequest`/`HTTPResponse` under `HTTP`:
`self_build` then `post_build` appending the (possibly re-compressed)
payload; the empty `HTTP` layer contributes nothing. -/
def buildModel (env : CodecEnv) (auto : Bool) (isResp : Bool)
    (m : HModel) : Bytes :=
  let fields := if isResp then responseFieldsFull else requestFieldsFull
  let enc := getEncodings isResp (dictFind m.slots (str2b "Transfer_Encoding"))
    (dictFind m.slots (str2b "Content_Encoding"))
  postBuild env auto enc (selfBuildM fields m) m.body

/-- A concrete codec environment for witnesses: no optional backend
available, every decode fails (the environment never matters on bodies
without compression codings). -/
def defEnv : CodecEnv where
  lzw_available := false
  brotli_available := false
  zstd_available := false
  zlib_decompress := fun _ => .error ()
  gzip_decompress := fun _ => .error ()
  lzw_decompress := fun _ => .error ()
  brotli_decompress := fun _ => .error ()
  zstd_decompress := fun _ => .error ()
  zlib_compress := fun b => b
  gzip_compress := fun b => b
  lzw_compress := fun b => b
  brotli_compress := fun b => b
  zstd_compress := fun b => b

/- ### Supporting lemmas: dictionaries -/

/-- Insert a list of entries into a dict, left to right. -/
def insertAllD {α : Type} (d : List (Bytes × α)) (es : List (Bytes × α)) :
    List (Bytes × α) :=
  es.foldl (fun d e => dictInsert d e.1 e.2) d

theorem dictHas_eq_false_find {α : Type} {d : List (Bytes × α)} {k : Bytes}
    (h : dictHas d k = false) : dictFind d k = none := by
  unfold dictFind
  have : d.find? (fun e => e.1 == k) = none := by
    rw [List.find?_eq_none]
    intro x hx hpx
    have : d.any (fun e => e.1 == k) = true := List.any_eq_true.mpr ⟨x, hx, hpx⟩
    rw [dictHas] at h
    simp [this] at h
  simp [this]

theorem updKey_pred {α : Type} (k : Bytes) (v : α) (k' : Bytes) :
    ((fun e : Bytes × α => e.1 == k') ∘
      (fun e : Bytes × α => if e.1 == k then (e.1, v) else e)) =
      fun e : Bytes × α => e.1 == k' := by
  funext e
  by_cases h : (e.1 == k) = true <;> simp [Function.comp, h]

theorem dictFind_map_update_ne {α : Type} (t : List (Bytes × α)) (k : Bytes)
    (v : α) (k' : Bytes) (hne : k ≠ k') :
    dictFind (t.map (fun e => if e.1 == k then (e.1, v) else e)) k' =
      dictFind t k' := by
  unfold dictFind
  rw [List.find?_map, updKey_pred]
  cases hfd : t.find? (fun e => e.1 == k') with
  | none => simp
  | some e0 =>
    have hp : e0.1 = k' := by simpa using List.find?_some hfd
    have he0 : (e0.1 == k) = false := by
      simp only [beq_eq_false_iff_ne]
      rw [hp]
      exact Ne.symm hne
    simp [Option.map, beq_eq_false_iff_ne.mp he0]

theorem dictFind_map_update_self {α : Type} (t : List (Bytes × α)) (k : Bytes)
    (v : α) (hhas : dictHas t k = true) :
    dictFind (t.map (fun e => if e.1 == k then (e.1, v) else e)) k = some v := by
  unfold dictFind
  rw [List.find?_map, updKey_pred]
  obtain ⟨x, hx, hpx⟩ := List.any_eq_true.mp hhas
  cases hfd : t.find? (fun e => e.1 == k) with
  | none =>
    rw [List.find?_eq_none] at hfd
    exact absurd hpx (hfd x hx)
  | some e0 =>
    have hp : e0.1 = k := by simpa using List.find?_some hfd
    simp [Option.map, hp]

theorem dictFind_insert {α : Type} (d : List (Bytes × α)) (k : Bytes) (v : α)
    (k' : Bytes) :
    dictFind (dictInsert d k v) k' = if k = k' then some v else dictFind d k' := by
  unfold dictInsert
  by_cases hhas : dictHas d k
  · rw [if_pos hhas]
    by_cases hk : k = k'
    · subst hk
      rw [if_pos rfl]
      exact dictFind_map_update_self d k v hhas
    · rw [if_neg hk]
      exact dictFind_map_update_ne d k v k' hk
  · rw [if_neg hhas]
    have hnone : dictFind d k = none :=
      dictHas_eq_false_find (Bool.eq_false_iff.mpr hhas)
    by_cases hk : k = k'
    · subst hk
      rw [if_pos rfl]
      unfold dictFind at hnone ⊢
      rw [List.find?_append]
      cases hfd : d.find? (fun e => e.1 == k) with
      | some e => simp [hfd] at hnone
      | none => simp [List.find?_cons]
    · rw [if_neg hk]
      unfold dictFind
      rw [List.find?_append]
      have : List.find? (fun e => e.1 == k') [(k, v)] = none := by
        have hb : (k == k') = false := by simp [hk]
        simp [List.find?_cons, hb]
      rw [this]
      cases hfd : d.find? (fun e => e.1 == k') <;> simp

theorem insertAllD_append {α : Type} (d : List (Bytes × α)) (es : List (Bytes × α))
    (e : Bytes × α) :
    insertAllD d (es ++ [e]) = dictInsert (insertAllD d es) e.1 e.2 := by
  unfold insertAllD
  rw [List.foldl_append]
  rfl

theorem dictFind_insertAllD {α : Type} (es : List (Bytes × α))
    (d : List (Bytes × α)) (k : Bytes) :
    dictFind (insertAllD d es) k =
      match (es.filter (fun e => e.1 == k)).getLast? with
      | some e => some e.2
      | none => dictFind d k := by
  induction es using List.reverseRecOn generalizing d with
  | nil => rfl
  | append_singleton es e ih =>
    rw [insertAllD_append, dictFind_insert, List.filter_append]
    by_cases hk : e.1 = k
    · have hbe : (e.1 == k) = true := by simp [hk]
      rw [if_pos hk]
      have hfe : List.filter (fun x => x.1 == k) [e] = [e] := by
        simp [List.filter_cons, hbe]
      rw [hfe, List.getLast?_concat]
    · have hbe : (e.1 == k) = false := by simp [hk]
      rw [if_neg hk]
      have hfe : List.filter (fun x => x.1 == k) [e] = [] := by
        simp [List.filter_cons, hbe]
      rw [hfe, List.append_nil]
      exact ih d

/-- Number of entries of a dict carrying the given key. -/
def dictCount {α : Type} (d : List (Bytes × α)) (k : Bytes) : Nat :=
  (d.filter (fun e => e.1 == k)).length

theorem dictCount_of_not_has {α : Type} {d : List (Bytes × α)} {k : Bytes}
    (h : dictHas d k = false) : dictCount d k = 0 := by
  unfold dictCount
  rw [List.length_eq_zero, List.filter_eq_nil]
  intro e he hpe
  have : d.any (fun e => e.1 == k) = true := List.any_eq_true.mpr ⟨e, he, hpe⟩
  simp [dictHas, this] at h

theorem dictCount_insert {α : Type} (d : List (Bytes × α)) (k : Bytes) (v : α)
    (k' : Bytes) :
    dictCount (dictInsert d k v) k' =
      if dictHas d k then dictCount d k'
      else if k = k' then dictCount d k' + 1 else dictCount d k' := by
  unfold dictInsert
  by_cases hhas : dictHas d k
  · rw [if_pos hhas, if_pos hhas]
    unfold dictCount
    rw [List.filter_map]
    rw [List.length_map]
    congr 1
    apply List.filter_congr
    intro e he
    by_cases hek : e.1 = k <;> simp [hek]
  · rw [if_neg hhas, if_neg hhas]
    unfold dictCount
    rw [List.filter_append, List.length_append]
    by_cases hk : k = k'
    · subst hk
      simp [List.filter]
    · have : (k == k') = false := by simp [hk]
      simp [List.filter, this, hk]

theorem dictCount_insertAllD_le_one {α : Type} (es : List (Bytes × α))
    (d : List (Bytes × α)) (k : Bytes) (hd : dictCount d k ≤ 1) :
    dictCount (insertAllD d es) k ≤ 1 := by
  induction es using List.reverseRecOn with
  | nil => exact hd
  | append_singleton es e ih =>
    rw [insertAllD_append, dictCount_insert]
    by_cases hhas : dictHas (insertAllD d es) e.1
    · simpa [hhas] using ih
    · rw [if_neg (by simp [hhas])]
      by_cases hk : e.1 = k
      · subst hk
        rw [if_pos rfl, dictCount_of_not_has (Bool.eq_false_iff.mpr hhas)]
      · rw [if_neg hk]
        exact ih

theorem dictFind_isSome_count {α : Type} (d : List (Bytes × α)) (k : Bytes) :
    (dictFind d k).isSome = true ↔ 1 ≤ dictCount d k := by
  unfold dictFind dictCount
  constructor
  · intro h
    have : (d.find? (fun e => e.1 == k)).isSome = true := by
      cases hfd : d.find? (fun e => e.1 == k) with
      | some e => simp
      | none => simp [hfd] at h
    obtain ⟨x, hx, hpx⟩ := List.find?_isSome.mp this
    have : x ∈ d.filter (fun e => e.1 == k) := List.mem_filter.mpr ⟨hx, hpx⟩
    have := List.length_pos.mpr (List.ne_nil_of_mem this)
    omega
  · intro h
    have hne : d.filter (fun e => e.1 == k) ≠ [] := by
      intro hnil
      rw [hnil] at h
      simp at h
    obtain ⟨x, hx⟩ := List.exists_mem_of_ne_nil _ hne
    obtain ⟨hxd, hpx⟩ := List.mem_filter.mp hx
    have : (d.find? (fun e => e.1 == k)).isSome = true :=
      List.find?_isSome.mpr ⟨x, hxd, hpx⟩
    cases hfd : d.find? (fun e => e.1 == k) with
    | some e => simp
    | none => simp [hfd] at this

/- ### Supporting lemmas: header parsing -/

/-- The dict entry produced by one header line (the loop body of
`_parse_headers`). -/
def lineEntry (line : Bytes) : Option (Bytes × (Bytes × Bytes)) :=
  match pySplit1 line [58] with
  | none => none
  | some kv => some (normLower kv.1, (kv.1, pyStrip kv.2))

/-- The entries `_parse_headers` inserts, in line order. -/
def headerEntries (s : Bytes) : List (Bytes × (Bytes × Bytes)) :=
  (pySplitSep s crlfB).filterMap lineEntry

theorem parseHeaders_foldl (lines : List Bytes) (d : HeaderDict) :
    lines.foldl
      (fun d line =>
        match pySplit1 line [58] with
        | none => d
        | some (k, v) => dictInsert d (normLower k) (k, pyStrip v))
      d = insertAllD d (lines.filterMap lineEntry) := by
  induction lines generalizing d with
  | nil => rfl
  | cons line rest ih =>
    rw [List.foldl_cons, List.filterMap_cons]
    cases hsp : pySplit1 line [58] with
    | none => simp only [lineEntry, hsp]; exact ih d
    | some kv =>
      simp only [lineEntry, hsp]
      exact ih (dictInsert d (normLower kv.1) (kv.1, pyStrip kv.2))

theorem parseHeaders_eq (s : Bytes) :
    parseHeaders s = insertAllD [] (headerEntries s) := by
  unfold parseHeaders headerEntries
  exact parseHeaders_foldl (pySplitSep s crlfB) []

/-- Every entry of a dict built by inserting entries whose key is the
normalised original name keeps that invariant. -/
theorem insertAllD_key_inv (es : List (Bytes × (Bytes × Bytes)))
    (d : HeaderDict)
    (hd : ∀ e ∈ d, e.1 = normLower e.2.1)
    (he : ∀ e ∈ es, e.1 = normLower e.2.1) :
    ∀ e ∈ insertAllD d es, e.1 = normLower e.2.1 := by
  induction es generalizing d with
  | nil => exact hd
  | cons e0 rest ih =>
    intro e hmem
    refine ih (dictInsert d e0.1 e0.2) ?_ (fun x hx => he x (List.mem_cons_of_mem _ hx)) e hmem
    intro x hx
    have he0 : e0.1 = normLower e0.2.1 := he e0 (List.mem_cons_self _ _)
    unfold dictInsert at hx
    split at hx
    · obtain ⟨y, hy, hxy⟩ := List.mem_map.mp hx
      by_cases hyk : (y.1 == e0.1) = true
      · rw [if_pos hyk] at hxy
        subst hxy
        simpa using (by simpa using hyk : y.1 = e0.1) ▸ he0
      · rw [if_neg hyk] at hxy
        subst hxy
        exact hd y hy
    · rcases List.mem_append.mp hx with hxl | hxr
      · exact hd x hxl
      · have : x = e0 := by simpa using hxr
        subst this
        exact he0

theorem parseHeaders_key_inv (s : Bytes) :
    ∀ e ∈ parseHeaders s, e.1 = normLower e.2.1 := by
  rw [parseHeaders_eq]
  refine insertAllD_key_inv _ _ (by simp) ?_
  intro e he
  obtain ⟨line, hline, hle⟩ := List.mem_filterMap.mp he
  unfold lineEntry at hle
  cases hsp : pySplit1 line [58] with
  | none => simp [hsp] at hle
  | some kv =>
    rw [hsp] at hle
    cases hle
    rfl

/-- Entries surviving `popFields` were in the dict and their key matches
no popped field name. -/
theorem popFields_rem (fields : List Bytes) (slots : List (Bytes × Bytes))
    (h : HeaderDict) :
    ∀ e ∈ (popFields fields slots h).2,
      e ∈ h ∧ ∀ f ∈ fields, e.1 ≠ normLower f := by
  induction fields generalizing slots h with
  | nil =>
    intro e he
    exact ⟨he, by simp⟩
  | cons f fs ih =>
    intro e he
    have hunf : popFields (f :: fs) slots h =
        match dictPop h (normLower f) with
        | (some v, h2) => popFields fs (dictInsert slots f v.2) h2
        | (none, h2) => popFields fs slots h2 := rfl
    rw [hunf] at he
    unfold dictPop at he
    cases hfd : dictFind h (normLower f) with
    | some v =>
      rw [hfd] at he
      have he2 : e ∈ (popFields fs (dictInsert slots f v.2)
          (h.filter (fun x => !(x.1 == normLower f)))).2 := he
      obtain ⟨hmem, hrest⟩ := ih _ _ e he2
      obtain ⟨hh, hpe⟩ := List.mem_filter.mp hmem
      refine ⟨hh, ?_⟩
      intro g hg
      rcases List.mem_cons.mp hg with hgf | hgfs
      · subst hgf
        simpa using hpe
      · exact hrest g hgfs
    | none =>
      rw [hfd] at he
      have he2 : e ∈ (popFields fs slots
          (h.filter (fun x => !(x.1 == normLower f)))).2 := he
      obtain ⟨hmem, hrest⟩ := ih _ _ e he2
      obtain ⟨hh, hpe⟩ := List.mem_filter.mp hmem
      refine ⟨hh, ?_⟩
      intro g hg
      rcases List.mem_cons.mp hg with hgf | hgfs
      · subst hgf
        simpa using hpe
      · exact hrest g hgfs

/-- Keys of an insert-built dict come from the accumulator or the entry
list. -/
theorem insertAllD_keys {α : Type} (es : List (Bytes × α))
    (d : List (Bytes × α)) :
    ∀ x ∈ insertAllD d es,
      x.1 ∈ d.map (fun e => e.1) ∨ x.1 ∈ es.map (fun e => e.1) := by
  induction es generalizing d with
  | nil =>
    intro x hx
    exact Or.inl (List.mem_map.mpr ⟨x, hx, rfl⟩)
  | cons e0 rest ih =>
    intro x hx
    rcases ih (dictInsert d e0.1 e0.2) x hx with hl | hr
    · obtain ⟨y, hy, hxy⟩ := List.mem_map.mp hl
      unfold dictInsert at hy
      split at hy
      · obtain ⟨z, hz, hzy⟩ := List.mem_map.mp hy
        by_cases hzk : (z.1 == e0.1) = true
        · rw [if_pos hzk] at hzy
          subst hzy
          have hx1 : x.1 = e0.1 := by
            rw [← hxy]
            simpa using hzk
          refine Or.inr ?_
          rw [List.map_cons, hx1]
          exact List.mem_cons_self _ _
        · rw [if_neg hzk] at hzy
          subst hzy
          exact Or.inl (List.mem_map.mpr ⟨z, hz, hxy⟩)
      · rcases List.mem_append.mp hy with hyl | hyr
        · exact Or.inl (List.mem_map.mpr ⟨y, hyl, hxy⟩)
        · have : y = (e0.1, e0.2) := by simpa using hyr
          subst this
          have hx1 : x.1 = e0.1 := hxy.symm
          refine Or.inr ?_
          rw [List.map_cons, hx1]
          exact List.mem_cons_self _ _
    · exact Or.inr (List.mem_cons_of_mem _ hr)

/- ### Supporting lemmas: bodies, encodings, parse inversion -/

theorem parseHeadersAndBody_body (s : Bytes) :
    (parseHeadersAndBody s).2.2 = s.drop (headerSectionLen s) := by
  unfold parseHeadersAndBody headerSectionLen
  cases hf : findSubIdx s crlf2B with
  | some i =>
    cases hsp : pySplit1 (s.take (i + 4)) crlfB <;> simp [hsp]
  | none =>
    cases hsp : pySplit1 s crlfB <;> simp [hsp, List.drop_length]

theorem headerSectionLen_le (s : Bytes) : headerSectionLen s ≤ s.length := by
  unfold headerSectionLen
  cases hf : findSubIdx s crlf2B with
  | some i =>
    show i + 4 ≤ s.length
    have := findSubIdx_bound hf
    simp only [crlf2B, List.length_cons, List.length_nil] at this
    omega
  | none => exact Nat.le_refl _

theorem dissectHeadersG_rawBody (fields : List Bytes) (s : Bytes) :
    (dissectHeadersG fields s).rawBody = s.drop (headerSectionLen s) := by
  unfold dissectHeadersG
  exact parseHeadersAndBody_body s

theorem postDissect_nil_enc (env : CodecEnv) (auto : Bool) (s : Bytes) :
    postDissect env auto [] s = s := by
  unfold postDissect chunkStage codecStage
  cases auto <;> simp [List.contains]

theorem postDissect_auto_false (env : CodecEnv) (enc : List Bytes) (s : Bytes) :
    postDissect env false enc s = s := rfl

theorem getEncodings_req (te ce : Option Bytes) : getEncodings false te ce = [] := rfl

/-- Inversion of `httpParse` for the request outcome. -/
theorem httpParse_req_inv {env : CodecEnv} {auto : Bool} {data : Bytes}
    {m : HModel} (h : httpParse env auto data = .req m) :
    m = dissectModel env auto false data := by
  unfold httpParse at h
  split at h
  · exact absurd h (by simp)
  · split at h
    · injection h with h2
      exact h2.symm
    · exact absurd h (by simp)
    · exact absurd h (by simp)

/-- Inversion of `httpParse` for the response outcome. -/
theorem httpParse_resp_inv {env : CodecEnv} {auto : Bool} {data : Bytes}
    {m : HModel} (h : httpParse env auto data = .resp m) :
    m = dissectModel env auto true data := by
  unfold httpParse at h
  split at h
  · exact absurd h (by simp)
  · split at h
    · exact absurd h (by simp)
    · injection h with h2
      exact h2.symm
    · exact absurd h (by simp)

/-- The body stored by `dissectModel` when the parsed message declares no
transfer or content encodings: `post_dissect` is the identity and the
body is the raw bytes after the header terminator. -/
theorem dissectModel_body_of_nil_enc (env : CodecEnv) (auto : Bool)
    (isResp : Bool) (s : Bytes)
    (henc : getEncodings isResp
      (dictFind (dissectModel env auto isResp s).slots (str2b "Transfer_Encoding"))
      (dictFind (dissectModel env auto isResp s).slots (str2b "Content_Encoding")) = []) :
    (dissectModel env auto isResp s).body = s.drop (headerSectionLen s) := by
  have hb : (dissectModel env auto isResp s).body =
      postDissect env auto
        (getEncodings isResp
          (dictFind (dissectModel env auto isResp s).slots (str2b "Transfer_Encoding"))
          (dictFind (dissectModel env auto isResp s).slots (str2b "Content_Encoding")))
        ((dissectHeadersG (if isResp then responseFieldNames else requestFieldNames) s).rawBody) := by
    rfl
  rw [hb, henc, postDissect_nil_enc]
  exact dissectHeadersG_rawBody _ s

/-- The cache stored by `dissectModel` concatenated with the raw body
reproduces the input. -/
theorem dissectModel_cache_append (env : CodecEnv) (isResp : Bool) (s : Bytes) :
    (dissectModel env false isResp s).cache = some (s.take (headerSectionLen s)) ∧
    (dissectModel env false isResp s).body = s.drop (headerSectionLen s) := by
  have hraw : (dissectHeadersG (if isResp then responseFieldNames else requestFieldNames) s).rawBody
      = s.drop (headerSectionLen s) := dissectHeadersG_rawBody _ s
  constructor
  · have hc : (dissectModel env false isResp s).cache =
        some (if (dissectHeadersG (if isResp then responseFieldNames else requestFieldNames) s).rawBody.isEmpty
          then s
          else s.take (s.length - (dissectHeadersG (if isResp then responseFieldNames else requestFieldNames) s).rawBody.length)) := rfl
    rw [hc, hraw]
    by_cases hempty : (s.drop (headerSectionLen s)).isEmpty
    · rw [if_pos hempty]
      have hle := headerSectionLen_le s
      have hlen : s.length - headerSectionLen s = 0 := by
        have := List.length_drop (headerSectionLen s) s
        rw [List.isEmpty_iff] at hempty
        rw [hempty] at this
        simp at this
        omega
      have : headerSectionLen s = s.length := by omega
      rw [this, List.take_length]
    · rw [if_neg hempty]
      rw [List.length_drop]
      have hle := headerSectionLen_le s
      have : s.length - (s.length - headerSectionLen s) = headerSectionLen s := by
        omega
      rw [this]
  · have hb : (dissectModel env false isResp s).body =
        postDissect env false
          (getEncodings isResp
            (dictFind (dissectModel env false isResp s).slots (str2b "Transfer_Encoding"))
            (dictFind (dissectModel env false isResp s).slots (str2b "Content_Encoding")))
          ((dissectHeadersG (if isResp then responseFieldNames else requestFieldNames) s).rawBody) := rfl
    rw [hb, postDissect_auto_false, hraw]

theorem parseHeadersAndBody_key_inv (s : Bytes) :
    ∀ e ∈ (parseHeadersAndBody s).2.1, e.1 = normLower e.2.1 := by
  unfold parseHeadersAndBody
  cases hf : findSubIdx s crlf2B with
  | some i =>
    cases hsp : pySplit1 (s.take (i + 4)) crlfB with
    | some fl => simpa [hsp] using parseHeaders_key_inv fl.2
    | none => simp [hsp]
  | none =>
    cases hsp : pySplit1 s crlfB with
    | some fl => simpa [hsp] using parseHeaders_key_inv fl.2
    | none => simp [hsp]

theorem roundtrip_core (env : CodecEnv) (isResp : Bool) (data : Bytes) :
    buildModel env false isResp (dissectModel env false isResp data) = data := by
  obtain ⟨hc, hb⟩ := dissectModel_cache_append env isResp data
  have hstep : buildModel env false isResp (dissectModel env false isResp data) =
      selfBuildM (if isResp then responseFieldsFull else requestFieldsFull)
        (dissectModel env false isResp data) ++
        (dissectModel env false isResp data).body := rfl
  rw [hstep]
  unfold selfBuildM
  rw [hc, hb]
  exact List.take_append_drop _ _

/-- The selection condition of the codec stage: whichever of the five
codings matches first, its backend is unavailable or its decode raises.
(The last branch: no coding matched at all, so the stage is trivially a
no-op.) -/
def codecFailOpen (env : CodecEnv) (enc : List Bytes) (s : Bytes) : Prop :=
  if enc.contains (str2b "deflate") then env.zlib_decompress s = .error ()
  else if enc.contains (str2b "gzip") then env.gzip_decompress s = .error ()
  else if enc.contains (str2b "compress") then
    env.lzw_available = false ∨ env.lzw_decompress s = .error ()
  else if enc.contains (str2b "br") then
    env.brotli_available = false ∨ env.brotli_decompress s = .error ()
  else if enc.contains (str2b "zstd") then
    env.zstd_available = false ∨ env.zstd_decompress s = .error ()
  else True

/- ### Claim theorems -/

/-- C10: duplicate headers collapse to the last occurrence.  For every
header block and normalised name `k`, the `_parse_headers` dict holds
under `k` exactly the `(original-case name, stripped value)` pair of the
last line normalising to `k` (and nothing when no line does), and it
holds at most one entry for `k` — exactly one when any such line
exists. -/
theorem C10_duplicate_headers_last_wins (s : Bytes) (k : Bytes) :
    dictFind (parseHeaders s) k =
      (((headerEntries s).filter (fun e => e.1 == k)).getLast?).map (fun e => e.2) ∧
    dictCount (parseHeaders s) k =
      if ((((headerEntries s).filter (fun e => e.1 == k)).getLast?).map
        (fun e => e.2)).isSome then 1 else 0 := by
  have hfind : dictFind (parseHeaders s) k =
      (((headerEntries s).filter (fun e => e.1 == k)).getLast?).map
        (fun e => e.2) := by
    rw [parseHeaders_eq, dictFind_insertAllD]
    cases hl : ((headerEntries s).filter (fun e => e.1 == k)).getLast? with
    | some e => simp
    | none => simp [dictFind]
  refine ⟨hfind, ?_⟩
  have hle : dictCount (parseHeaders s) k ≤ 1 := by
    rw [parseHeaders_eq]
    exact dictCount_insertAllD_le_one _ [] k (by simp [dictCount])
  by_cases hs : (dictFind (parseHeaders s) k).isSome = true
  · have h1 := (dictFind_isSome_count _ _).mp hs
    rw [hfind] at hs
    rw [if_pos hs]
    omega
  · have h0 : ¬1 ≤ dictCount (parseHeaders s) k := fun hge =>
      hs ((dictFind_isSome_count _ _).mpr hge)
    rw [hfind] at hs
    rw [if_neg hs]
    omega

/-- C8: header-slot disjointness.  Any entry left in `Unknown_Headers`
after `_dissect_headers` has a normalised name matching none of the
field slots that were popped; known names live only in their slot and
never also in the unknown map. -/
theorem C8_header_slot_disjoint (fields : List Bytes) (s : Bytes)
    (p : Bytes × Bytes) (hp : p ∈ (dissectHeadersG fields s).unknown) :
    normLower p.1 ∉ fields.map normLower := by
  have hunk : (dissectHeadersG fields s).unknown =
      insertAllD []
        (((popFields fields [] (parseHeadersAndBody s).2.1).2).map
          (fun e => e.2)) := rfl
  rw [hunk] at hp
  have hk := insertAllD_keys _ [] p hp
  simp only [List.map_nil, List.not_mem_nil, false_or] at hk
  rw [List.map_map] at hk
  obtain ⟨e, he, hep⟩ := List.mem_map.mp hk
  obtain ⟨hmem, hnof⟩ :=
    popFields_rem fields [] (parseHeadersAndBody s).2.1 e he
  have hkey : e.1 = normLower e.2.1 := parseHeadersAndBody_key_inv s e hmem
  intro hcontra
  obtain ⟨f, hf, hfe⟩ := List.mem_map.mp hcontra
  refine hnof f hf ?_
  rw [hkey]
  have he21 : e.2.1 = p.1 := hep
  rw [he21, hfe]

/-- C9: `_get_encodings` of a request is always empty, so
`post_dissect` leaves a request's body untouched: with auto compression
on, a dissected request's stored body is exactly the raw bytes after the
header terminator — never de-chunked, never decompressed. -/
theorem C9_request_body_unchanged :
    (∀ te ce : Option Bytes, getEncodings false te ce = []) ∧
    (∀ (env : CodecEnv) (auto : Bool) (s : Bytes), postDissect env auto [] s = s) ∧
    (∀ (env : CodecEnv) (data : Bytes) (m : HModel),
      httpParse env true data = .req m →
      m.body = data.drop (headerSectionLen data)) := by
  refine ⟨fun te ce => rfl, fun env auto s => postDissect_nil_enc env auto s, ?_⟩
  intro env data m h
  have hm := httpParse_req_inv h
  subst hm
  exact dissectModel_body_of_nil_enc env true false data rfl

/-- C4: round-trip.  Serializing an `HTTPRequest`/`HTTPResponse` obtained
by parsing any bytes with auto body coding disabled, unmutated,
reproduces the input exactly (via `raw_packet_cache` plus the verbatim
body). -/
theorem C4_roundtrip (env : CodecEnv) (data : Bytes) (m : HModel) :
    (httpParse env false data = .req m → buildModel env false false m = data) ∧
    (httpParse env false data = .resp m → buildModel env false true m = data) := by
  constructor
  · intro h
    have hm := httpParse_req_inv h
    subst hm
    exact roundtrip_core env false data
  · intro h
    have hm := httpParse_resp_inv h
    subst hm
    exact roundtrip_core env true data

/-- C6: codec fail-open.  Whenever the first coding matched by the
decompression stage has an unavailable backend or a failing decode, the
whole `post_dissect` returns the (possibly de-chunked) bytes unchanged;
`postDissect` is a total function, so no exception reaches the caller.
With no `chunked` token the de-chunk stage is the identity and the body
itself is returned untouched. -/
theorem C6_codec_fail_open (env : CodecEnv) (enc : List Bytes) (s : Bytes)
    (h : codecFailOpen env enc (chunkStage enc s)) :
    postDissect env true enc s = chunkStage enc s := by
  have hstep : postDissect env true enc s =
      codecStage env enc (chunkStage enc s) := rfl
  rw [hstep]
  unfold codecFailOpen at h
  unfold codecStage
  by_cases h1 : enc.contains (str2b "deflate") = true
  · rw [if_pos h1] at h ⊢
    rw [h]
    rfl
  · rw [if_neg h1] at h ⊢
    by_cases h2 : enc.contains (str2b "gzip") = true
    · rw [if_pos h2] at h ⊢
      rw [h]
      rfl
    · rw [if_neg h2] at h ⊢
      by_cases h3 : enc.contains (str2b "compress") = true
      · rw [if_pos h3] at h ⊢
        rcases h with hav | herr
        · simp [hav]
        · cases henv : env.lzw_available with
          | false => simp [henv]
          | true => simp [henv, herr, exceptPass]
      · rw [if_neg h3] at h ⊢
        by_cases h4 : enc.contains (str2b "br") = true
        · rw [if_pos h4] at h ⊢
          rcases h with hav | herr
          · simp [hav]
          · cases henv : env.brotli_available with
            | false => simp [henv]
            | true => simp [henv, herr, exceptPass]
        · rw [if_neg h4] at h ⊢
          by_cases h5 : enc.contains (str2b "zstd") = true
          · rw [if_pos h5] at h ⊢
            rcases h with hav | herr
            · simp [hav]
            · cases henv : env.zstd_available with
              | false => simp [henv]
              | true => simp [henv, herr, exceptPass]
          · rw [if_neg h5]

/-- C7: protocol sniffing.  `guess_payload_class` classifies by the first
`\r\n`-terminated line: the request regex gives `HTTPRequest`, else the
response regex gives `HTTPResponse`, else (including buffers with no
`\r\n` at all, where `index` raises) the payload is `Raw`; with the
spec's concrete examples. -/
theorem C7_sniffer :
    (∀ p : Bytes, findSubIdx p crlfB = none → guessPayloadClass p = .rawC) ∧
    (∀ (p : Bytes) (i : Nat), findSubIdx p crlfB = some i →
      reqLineMatch (p.take i) = true → guessPayloadClass p = .reqC) ∧
    (∀ (p : Bytes) (i : Nat), findSubIdx p crlfB = some i →
      reqLineMatch (p.take i) = false → respLineMatch (p.take i) = true →
      guessPayloadClass p = .respC) ∧
    (∀ (p : Bytes) (i : Nat), findSubIdx p crlfB = some i →
      reqLineMatch (p.take i) = false → respLineMatch (p.take i) = false →
      guessPayloadClass p = .rawC) ∧
    guessPayloadClass (str2b "GET /a HTTP/1.1\r\nHost: x\r\n\r\n") = .reqC ∧
    guessPayloadClass (str2b "HTTP/1.1 200 OK\r\nServer: y\r\n\r\n") = .respC ∧
    guessPayloadClass (str2b "SOMETHING else\r\nmore") = .rawC := by
  refine ⟨?_, ?_, ?_, ?_, rfl, rfl, rfl⟩
  · intro p h
    unfold guessPayloadClass
    rw [h]
  · intro p i h h1
    unfold guessPayloadClass
    rw [h]
    simp [h1]
  · intro p i h h1 h2
    unfold guessPayloadClass
    rw [h]
    simp [h1, h2]
  · intro p i h h1 h2
    unfold guessPayloadClass
    rw [h]
    simp [h1, h2]

/-- A concrete request for witnesses: known header `Host`, unknown header
`X-Weird`, body `hello`. -/
def reqBufW : Bytes := str2b "GET /a HTTP/1.1\r\nHost: x\r\nX-Weird: b\r\n\r\nhello"

/-- A concrete response for witnesses. -/
def respBufW : Bytes := str2b "HTTP/1.1 200 OK\r\nServer: y\r\n\r\nworld"

/-- A request that declares chunked coding (which `post_dissect` must
ignore for requests). -/
def chunkReqBuf : Bytes :=
  str2b "POST / HTTP/1.1\r\nTransfer-Encoding: chunked\r\n\r\n3\r\nabc\r\n0\r\n\r\n"

theorem C8_header_slot_disjoint_witness :
    normLower (str2b "X-Weird") ∉ requestFieldNames.map normLower :=
  C8_header_slot_disjoint requestFieldNames reqBufW
    (str2b "X-Weird", str2b "b") (by decide)

theorem C9_request_body_unchanged_witness :
    (dissectModel defEnv true false chunkReqBuf).body =
      str2b "3\r\nabc\r\n0\r\n\r\n" :=
  (C9_request_body_unchanged.2.2 defEnv chunkReqBuf
    (dissectModel defEnv true false chunkReqBuf) rfl).trans rfl

theorem C4_roundtrip_witness :
    buildModel defEnv false false (dissectModel defEnv false false reqBufW) = reqBufW ∧
    buildModel defEnv false true (dissectModel defEnv false true respBufW) = respBufW :=
  ⟨(C4_roundtrip defEnv reqBufW (dissectModel defEnv false false reqBufW)).1 rfl,
   (C4_roundtrip defEnv respBufW (dissectModel defEnv false true respBufW)).2 rfl⟩

theorem C6_codec_fail_open_witness :
    postDissect defEnv true [str2b "gzip"] (str2b "payload") = str2b "payload" := by
  have hfail : codecFailOpen defEnv [str2b "gzip"]
      (chunkStage [str2b "gzip"] (str2b "payload")) := by
    unfold codecFailOpen
    have h1 : ([str2b "gzip"]).contains (str2b "deflate") = false := rfl
    have h2 : ([str2b "gzip"]).contains (str2b "gzip") = true := rfl
    rw [h1, h2]
    simp only [Bool.false_eq_true, if_false, if_true]
    rfl
  exact (C6_codec_fail_open defEnv [str2b "gzip"] (str2b "payload") hfail).trans rfl

theorem C7_sniffer_witness :
    guessPayloadClass (str2b "raw bytes with no line end") = .rawC :=
  C7_sniffer.1 (str2b "raw bytes with no line end") rfl

/- ### Supporting lemmas: the probe path of `tcp_reassemble` -/

theorem tcpReassemble_probe_resp (env : CodecEnv) (auto : Bool) (data : Bytes)
    (meta : Meta) (m : HModel)
    (hmeta : meta.detect_end = none ∨ meta.detect_unknown = true)
    (hparse : httpParse env auto data = .resp m) :
    tcpReassemble env auto data meta =
      tcpClassify data { meta with detect_unknown := false } (.resp m) m true := by
  unfold tcpReassemble
  have hcond : (meta.detect_end.isNone || meta.detect_unknown) = true := by
    rcases hmeta with h | h
    · simp [h]
    · simp [h]
  rw [hcond]
  simp only [if_true]
  rw [hparse]

theorem tcpReassemble_probe_req (env : CodecEnv) (auto : Bool) (data : Bytes)
    (meta : Meta) (m : HModel)
    (hmeta : meta.detect_end = none ∨ meta.detect_unknown = true)
    (hparse : httpParse env auto data = .req m) :
    tcpReassemble env auto data meta =
      tcpClassify data { meta with detect_unknown := false } (.req m) m false := by
  unfold tcpReassemble
  have hcond : (meta.detect_end.isNone || meta.detect_unknown) = true := by
    rcases hmeta with h | h
    · simp [h]
    · simp [h]
  rw [hcond]
  simp only [if_true]
  rw [hparse]

/-- The Content-Length quantity of the code, `len(data) - len(payload)`,
coincides with the header-section length when no body coding applies. -/
theorem body_len_eq (env : CodecEnv) (auto : Bool) (isResp : Bool)
    (data : Bytes) (m : HModel)
    (hm : m = dissectModel env auto isResp data)
    (henc : getEncodings isResp
      (dictFind m.slots (str2b "Transfer_Encoding"))
      (dictFind m.slots (str2b "Content_Encoding")) = []) :
    m.body = data.drop (headerSectionLen data) ∧
    (data.length : Int) - (m.body.length : Int) =
      ((headerSectionLen data : Nat) : Int) := by
  subst hm
  have hb := dissectModel_body_of_nil_enc env auto isResp data henc
  refine ⟨hb, ?_⟩
  rw [hb, List.length_drop]
  have hle := headerSectionLen_le data
  rw [Nat.cast_sub hle]
  ring

/-- The spec's header block `H` with `Content-Length: 5`. -/
def bufH : Bytes := str2b "HTTP/1.1 200 OK\r\nContent-Length: 5\r\n\r\n"

/-- `H + "ab"`: two of the five declared body bytes received. -/
def bufP : Bytes := bufH ++ str2b "ab"

/-- `H + "abcde"`: the full declared body received. -/
def bufD : Bytes := bufH ++ str2b "abcde"

/-- A response declaring a non-numeric Content-Length, with the body
started (so the buffer does not end at the header terminator). -/
def bufZZ : Bytes := str2b "HTTP/1.1 200 OK\r\nContent-Length: zz\r\n\r\nab"

/-- A status-101 upgrade response whose header section is still
truncated: no `\r\n\r\n` anywhere. -/
def buf101 : Bytes :=
  str2b "HTTP/1.1 101 Switching Protocols\r\nUpgrade: websocket\r\n"

/-- C1 (amended): Content-Length framing.  For a response with a usable
declared Content-Length `n`, no body codings, whose buffer does not end
exactly at the header terminator (otherwise the instant HEAD-response
heuristic of the source completes it first — see the counterexample),
and whose body has started (or `n = 0`), `tcp_reassemble` installs the
predicate `len(dat) - headerSectionLength ≥ n` and returns the pending
sentinel exactly while `bufferLength − headerSectionLength < n`, the
completed message once `≥ n`. -/
theorem C1_content_length_framing (env : CodecEnv) (data : Bytes)
    (meta : Meta) (m : HModel) (lv : Bytes) (n : Int)
    (hmeta : meta.detect_end = none ∨ meta.detect_unknown = true)
    (hparse : httpParse env true data = .resp m)
    (hnoend : pyEndswith data crlf2B = false)
    (hcl : dictFind m.slots (str2b "Content_Length") = some lv)
    (hint : pyInt lv = some n)
    (henc : getEncodings true
      (dictFind m.slots (str2b "Transfer_Encoding"))
      (dictFind m.slots (str2b "Content_Encoding")) = [])
    (hbody : m.body ≠ [] ∨ n = 0) :
    tcpReassemble env true data meta =
      .ok ((if (data.length : Int) - ((headerSectionLen data : Nat) : Int) ≥ n
            then some (.resp m) else none),
           { meta with
             detect_unknown := false,
             detect_end := some
               (.contentLen ((headerSectionLen data : Nat) : Int) n) }) := by
  rw [tcpReassemble_probe_resp env true data meta m hmeta hparse]
  obtain ⟨hbeq, hlen⟩ :=
    body_len_eq env true true data m (httpParse_resp_inv hparse) henc
  unfold tcpClassify
  rw [hnoend]
  simp only [Bool.true_and, Bool.false_eq_true, if_false]
  rw [hcl]
  simp only []
  rw [hint]
  have hB : (!m.body.isEmpty || n == 0) = true := by
    rcases hbody with h | h
    · simp [h]
    · simp [h]
  simp only [hB, if_true]
  rw [hlen]
  unfold tcpFinish
  simp only [evalDetect]
  by_cases hge : (data.length : Int) - ((headerSectionLen data : Nat) : Int) ≥ n
  · rw [if_pos (by simpa using hge), if_pos hge]
  · rw [if_neg (by simpa using hge), if_neg hge]

/-- C1 counterexample: the claim as stated fails when the buffer ends
exactly at the header terminator.  `bufH` declares `Content-Length: 5`
with its header section fully received and
`bufferLength − headerSectionLength = 0 < 5`, yet `tcp_reassemble`
returns the completed message (the instant HEAD-response heuristic,
`data.endswith(b"\r\n\r\n")`, takes priority over Content-Length),
not the pending sentinel. -/
theorem C1_content_length_framing_counterexample :
    (bufH.length : Int) - ((headerSectionLen bufH : Nat) : Int) < 5 ∧
    tcpReassemble defEnv true bufH initMeta =
      .ok (some (.resp (dissectModel defEnv true true bufH)),
           { detect_end := some .always, detect_unknown := false,
             tcp_end := false }) := by
  constructor
  · decide
  · rfl

theorem C1_content_length_framing_witness :
    tcpReassemble defEnv true bufP initMeta =
      .ok ((if (bufP.length : Int) - ((headerSectionLen bufP : Nat) : Int) ≥ 5
            then some (.resp (dissectModel defEnv true true bufP)) else none),
           { initMeta with
             detect_unknown := false,
             detect_end := some
               (.contentLen ((headerSectionLen bufP : Nat) : Int) 5) }) ∧
    tcpReassemble defEnv true bufD initMeta =
      .ok ((if (bufD.length : Int) - ((headerSectionLen bufD : Nat) : Int) ≥ 5
            then some (.resp (dissectModel defEnv true true bufD)) else none),
           { initMeta with
             detect_unknown := false,
             detect_end := some
               (.contentLen ((headerSectionLen bufD : Nat) : Int) 5) }) ∧
    ¬((bufP.length : Int) - ((headerSectionLen bufP : Nat) : Int) ≥ 5) ∧
    (bufD.length : Int) - ((headerSectionLen bufD : Nat) : Int) ≥ 5 :=
  ⟨C1_content_length_framing defEnv bufP initMeta
      (dissectModel defEnv true true bufP) (str2b "5") 5
      (Or.inl rfl) rfl rfl rfl rfl rfl (Or.inl (by decide)),
   C1_content_length_framing defEnv bufD initMeta
      (dissectModel defEnv true true bufD) (str2b "5") 5
      (Or.inl rfl) rfl rfl rfl rfl rfl (Or.inl (by decide)),
   by decide, by decide⟩

/-- C2 counterexample: the claim as stated is false.  `bufZZ` carries
`Content-Length: zz`; `tcp_reassemble` executes `length = int(length)`
with no surrounding `try`, so the `ValueError` escapes to the caller
instead of the classification falling through to the next rule. -/
theorem C2_malformed_length_counterexample :
    dictFind (dissectModel defEnv true true bufZZ).slots
      (str2b "Content_Length") = some (str2b "zz") ∧
    pyInt (str2b "zz") = none ∧
    tcpReassemble defEnv true bufZZ initMeta = .error () := by
  refine ⟨rfl, rfl, rfl⟩

/-- C2 (amended): a buffer whose speculative parse yields a Content-Length
header with a non-numeric value makes `tcp_reassemble` raise `ValueError`
(the unguarded `int(length)`), which propagates to the caller — except
when the buffer is a response ending exactly at the header terminator,
where the instant HEAD-response heuristic fires before the length is
examined. -/
theorem C2_malformed_length_raises (env : CodecEnv) (data : Bytes)
    (meta : Meta) (m : HModel) (lv : Bytes)
    (hmeta : meta.detect_end = none ∨ meta.detect_unknown = true)
    (hparse : httpParse env true data = .resp m ∧ pyEndswith data crlf2B = false
      ∨ httpParse env true data = .req m)
    (hcl : dictFind m.slots (str2b "Content_Length") = some lv)
    (hint : pyInt lv = none) :
    tcpReassemble env true data meta = .error () := by
  rcases hparse with ⟨hp, hnoend⟩ | hp
  · rw [tcpReassemble_probe_resp env true data meta m hmeta hp]
    unfold tcpClassify
    rw [hnoend]
    simp only [Bool.true_and, Bool.false_eq_true, if_false]
    rw [hcl]
    simp only []
    rw [hint]
  · rw [tcpReassemble_probe_req env true data meta m hmeta hp]
    unfold tcpClassify
    simp only [Bool.false_and, Bool.false_eq_true, if_false]
    rw [hcl]
    simp only []
    rw [hint]

theorem C2_malformed_length_raises_witness :
    tcpReassemble defEnv true bufZZ initMeta = .error () :=
  C2_malformed_length_raises defEnv bufZZ initMeta
    (dissectModel defEnv true true bufZZ) (str2b "zz")
    (Or.inl rfl) (Or.inl ⟨rfl, rfl⟩) rfl rfl

/-- C5: `tcp_reassemble` installs
`detect_end = lambda dat: dat.find(b"\r\n\r\n")` for a status-101
response; the lambda returns the integer from `find`, whose Python
truthiness is `≠ 0`.  With no header terminator anywhere in `buf101`,
`find` returns `-1`, which is truthy, so the engine wrongly reports the
message complete — contradicting the claim (and the source's own
comment "make sure all headers are present", which wants "terminator
present"; the check should have been `find(...) != -1`). -/
theorem C5_upgrade_find_truthiness_bug :
    pyFind buf101 crlf2B = -1 ∧
    dictFind (dissectModel defEnv true true buf101).slots
      (str2b "Status_Code") = some (str2b "101") ∧
    evalDetect .upgradeFind initMeta buf101 = true ∧
    tcpReassemble defEnv true buf101 initMeta =
      .ok (some (.resp (dissectModel defEnv true true buf101)),
           { detect_end := some .upgradeFind, detect_unknown := false,
             tcp_end := false }) := by
  refine ⟨rfl, rfl, rfl, rfl⟩

/- ### Supporting lemmas: the chunk loop on well-formed prefixes -/

theorem findSubAux_crlf (L r : Bytes) (hL : ¬ 13 ∈ L) (i : Nat) :
    findSubAux crlfB (L ++ 13 :: 10 :: r) i = some (i + L.length) := by
  induction L generalizing i with
  | nil =>
    simp only [List.nil_append, findSubAux]
    have hpf : bytesPrefix crlfB (13 :: 10 :: r) = true := rfl
    rw [hpf]
    simp
  | cons a L ih =>
    have ha : a ≠ 13 := by
      intro h
      exact hL (h ▸ List.mem_cons_self a L)
    have hL2 : ¬ 13 ∈ L := fun h => hL (List.mem_cons_of_mem a h)
    simp only [List.cons_append, findSubAux, List.append_eq]
    have hpf : bytesPrefix crlfB (a :: (L ++ 13 :: 10 :: r)) = false := by
      have h13 : (13 == a) = false := by
        simp only [beq_eq_false_iff_ne]
        exact fun h => ha h.symm
      simp [bytesPrefix, crlfB, h13]
    rw [hpf]
    simp only [Bool.false_eq_true, if_false]
    rw [ih hL2 (i + 1)]
    simp only [List.length_cons, Option.some.injEq]
    omega

theorem findSubIdx_crlf (L r : Bytes) (hL : ¬ 13 ∈ L) :
    findSubIdx (L ++ 13 :: 10 :: r) crlfB = some L.length := by
  unfold findSubIdx
  rw [findSubAux_crlf L r hL 0]
  simp

/-- One successful iteration of the chunk loop: a well-formed chunk
(`hex-length line, CRLF, that many bytes, CRLF`) is consumed and its
payload appended to the accumulator. -/
theorem dechunkFuel_step (fuel : Nat) (L c t acc : Bytes)
    (hL : ¬ 13 ∈ L) (hLhex : pyIntHex L = some (c.length : Int)) :
    dechunkFuel (fuel + 1) (L ++ 13 :: 10 :: (c ++ 13 :: 10 :: t)) acc =
      dechunkFuel fuel t (acc ++ c) := by
  have hne : (L ++ 13 :: 10 :: (c ++ 13 :: 10 :: t)).isEmpty = false := by
    cases L <;> rfl
  have htake : (L ++ 13 :: 10 :: (c ++ 13 :: 10 :: t)).take L.length = L := by
    have := List.take_left L (13 :: 10 :: (c ++ 13 :: 10 :: t))
    simpa using this
  have hbody : (L ++ 13 :: 10 :: (c ++ 13 :: 10 :: t)).drop (L.length + 2) =
      c ++ 13 :: 10 :: t := by
    have hsplit : L ++ 13 :: 10 :: (c ++ 13 :: 10 :: t) =
        (L ++ [13, 10]) ++ (c ++ 13 :: 10 :: t) := by simp
    rw [hsplit]
    have hlen2 : (L ++ [13, 10]).length = L.length + 2 := by simp
    rw [← hlen2]
    exact List.drop_left _ _
  have hblen : (c ++ 13 :: 10 :: t).length = c.length + (t.length + 2) := by
    simp
  have hidx2 : pyIdx (c ++ 13 :: 10 :: t).length ((c.length : Int) + 2) =
      c.length + 2 := by
    unfold pyIdx
    rw [if_pos (by omega)]
    have h1 : ((c.length : Int) + 2).toNat = c.length + 2 := by omega
    rw [h1, hblen]
    omega
  have hidx1 : pyIdx (c ++ 13 :: 10 :: t).length (c.length : Int) = c.length := by
    unfold pyIdx
    rw [if_pos (by omega)]
    have h1 : ((c.length : Int)).toNat = c.length := by omega
    rw [h1, hblen]
    omega
  have htk : (c ++ 13 :: 10 :: t).take (c.length + 2) = c ++ [13, 10] := by
    rw [List.take_append_eq_append_take]
    have h1 : c.take (c.length + 2) = c := List.take_all_of_le (by omega)
    have h2 : c.length + 2 - c.length = 2 := by omega
    rw [h1, h2]
    rfl
  have hrange : pySliceRange (c ++ 13 :: 10 :: t) (c.length : Int)
      ((c.length : Int) + 2) = crlfB := by
    unfold pySliceRange
    rw [hidx2, hidx1, htk]
    have := List.drop_left c [13, 10]
    simpa [crlfB] using this
  have hfrom : pySliceFrom (c ++ 13 :: 10 :: t) ((c.length : Int) + 2) = t := by
    unfold pySliceFrom
    rw [hidx2]
    have hsplit : c ++ 13 :: 10 :: t = (c ++ [13, 10]) ++ t := by simp
    rw [hsplit]
    have hlen2 : (c ++ [13, 10]).length = c.length + 2 := by simp
    rw [← hlen2]
    exact List.drop_left _ _
  have hto : pySliceTo (c ++ 13 :: 10 :: t) (c.length : Int) = c := by
    unfold pySliceTo
    rw [hidx1]
    have := List.take_left c (13 :: 10 :: t)
    simpa using this
  conv_lhs => unfold dechunkFuel
  simp only [hne, Bool.false_eq_true, if_false,
    findSubIdx_crlf L (c ++ 13 :: 10 :: t) hL, htake, hLhex, hbody, hrange,
    if_pos, hfrom, hto]

/-- The chunk loop aborts on a remainder whose first length line does
not parse as hex, returning that remainder and the accumulator. -/
theorem dechunkFuel_stop (fuel : Nat) (t acc : Bytes) (ht : t ≠ [])
    (hbad : pyIntHex (pyPartition t crlfB).1 = none) (hfu : 1 ≤ fuel) :
    dechunkFuel fuel t acc = (t, acc) := by
  cases fuel with
  | zero => omega
  | succ f =>
    unfold dechunkFuel
    have hne : t.isEmpty = false := by
      cases t with
      | nil => exact absurd rfl ht
      | cons a r => rfl
    rw [hne]
    simp only [Bool.false_eq_true, if_false]
    cases hf : findSubIdx t crlfB with
    | none =>
      have hpa : pyIntHex t = none := by
        unfold pyPartition at hbad
        rw [hf] at hbad
        exact hbad
      simp only [hf, hpa]
    | some i =>
      have hpa : pyIntHex (t.take i) = none := by
        unfold pyPartition at hbad
        rw [hf] at hbad
        exact hbad
      simp only [hf, hpa]

/-- C3 counterexample: the claim as stated is false.  On
`"3\r\nabc\r\nzz\r\n"` with a chunked coding the loop decodes `"abc"`,
then breaks on the invalid hex line `"zz"`; because the remainder is
non-empty, `post_dissect` keeps the raw remainder (`if not s: s = data`)
and the accumulated `"abc"` is discarded — the returned value is
`"zz\r\n"`, not the accumulated concatenation. -/
theorem C3_chunk_truncation_counterexample :
    postDissect defEnv true
      (getEncodings true (some (str2b "chunked")) none)
      (str2b "3\r\nabc\r\nzz\r\n") = str2b "zz\r\n" ∧
    str2b "zz\r\n" ≠ str2b "abc" := ⟨rfl, by decide⟩

/-- C3 (amended): on a chunked body made of a well-formed chunk followed
by a remainder whose length line is not valid hex, decoding stops without
raising (the function is total) and `post_dissect` returns the raw
remainder from the failure point — the payloads accumulated before the
failure are discarded, not returned (they are returned only when the
loop consumes the entire input). -/
theorem C3_chunk_abort_keeps_remainder (env : CodecEnv) (L c t : Bytes)
    (hL : ¬ 13 ∈ L) (hLhex : pyIntHex L = some (c.length : Int))
    (ht : t ≠ [])
    (hbad : pyIntHex (pyPartition t crlfB).1 = none) :
    postDissect env true [str2b "chunked"]
      (L ++ crlfB ++ c ++ crlfB ++ t) = t := by
  have hs : L ++ crlfB ++ c ++ crlfB ++ t =
      L ++ 13 :: 10 :: (c ++ 13 :: 10 :: t) := by
    simp [crlfB]
  rw [hs]
  have hcontains : ([str2b "chunked"]).contains (str2b "chunked") = true := rfl
  have hlen : (L ++ 13 :: 10 :: (c ++ 13 :: 10 :: t)).length =
      (L.length + c.length + t.length + 3) + 1 := by
    simp
    omega
  have hchunk : chunkStage [str2b "chunked"]
      (L ++ 13 :: 10 :: (c ++ 13 :: 10 :: t)) = t := by
    unfold chunkStage
    rw [hcontains]
    simp only [if_true]
    unfold dechunk
    rw [hlen]
    rw [dechunkFuel_step _ L c t [] hL hLhex]
    rw [dechunkFuel_stop _ t ([] ++ c) ht hbad (by omega)]
    have hne : t.isEmpty = false := by
      cases t with
      | nil => exact absurd rfl ht
      | cons a r => rfl
    simp [hne]
  have hpd : postDissect env true [str2b "chunked"]
      (L ++ 13 :: 10 :: (c ++ 13 :: 10 :: t)) =
      codecStage env [str2b "chunked"]
        (chunkStage [str2b "chunked"]
          (L ++ 13 :: 10 :: (c ++ 13 :: 10 :: t))) := rfl
  rw [hpd, hchunk]
  rfl

theorem C3_chunk_abort_keeps_remainder_witness :
    postDissect defEnv true [str2b "chunked"]
      (str2b "3" ++ crlfB ++ str2b "abc" ++ crlfB ++ str2b "zz\r\n") =
      str2b "zz\r\n" :=
  C3_chunk_abort_keeps_remainder defEnv (str2b "3") (str2b "abc")
    (str2b "zz\r\n") (by decide) rfl (by decide) rfl
